import Mathlib

/-!
Shallow embedding of the Position & Equity Simulation Engine of
`backtester.py` (class `Backtester`).  Monetary quantities, prices and
position sizes are modelled as rationals; timestamps as naturals.
The four order operations of `Backtester._execute_order` become a total
function `execOrder : Order → EngState → Bool × EngState` returning the
Python method's boolean outcome together with the updated engine state.
`Backtester.run_backtest` becomes `runBacktest`, a fold over the candle
list that invokes a strategy callback and then appends one equity sample
per candle, mirroring the loop body.
-/

namespace Backtester

/-- One OHLCV candle (a row of the DataFrame `self.data`); the field
`opn` models the column named open, which is a Lean keyword. -/
structure Candle where
  timestamp : ℕ
  opn : ℚ
  high : ℚ
  low : ℚ
  close : ℚ
  volume : ℚ
deriving Repr, DecidableEq

/-- The four order kinds accepted by `_execute_order` as its
`order_type` string argument. -/
inductive OrderKind where
  | BUY_LONG
  | CLOSE_LONG
  | SELL_SHORT
  | CLOSE_SHORT
deriving Repr, DecidableEq

/-- One entry of `self.trade_log`.  The Python dict keys `cost_usdt`
(for BUY_LONG and CLOSE_SHORT) and `revenue_usdt` (for CLOSE_LONG and
SELL_SHORT) are both modelled by the single field `cash_usdt`. -/
structure TradeRecord where
  timestamp : ℕ
  kind : OrderKind
  price : ℚ
  amount_coins : ℚ
  cash_usdt : ℚ
  balance_after_trade : ℚ
  current_position : ℚ
  pnl_usdt : ℚ
deriving Repr, DecidableEq

/-- One entry of `self.equity_log`. -/
structure EquitySample where
  timestamp : ℕ
  equity : ℚ
deriving Repr, DecidableEq

/-- The mutable state of a `Backtester` instance (the candle data is
passed separately to `runBacktest`). -/
structure EngState where
  initial_balance : ℚ
  current_balance : ℚ
  fee : ℚ
  position : ℚ
  entry_price : ℚ
  trade_log : List TradeRecord
  equity_log : List EquitySample
deriving Repr, DecidableEq

/-- `Backtester.__init__`: fresh engine state with the configured
starting balance and fee, flat position and empty logs. -/
def mkBacktester (initial_balance fee : ℚ) : EngState :=
  { initial_balance := initial_balance
    current_balance := initial_balance
    fee := fee
    position := 0
    entry_price := 0
    trade_log := []
    equity_log := [] }

/-- An order request: the `order_type`, `timestamp`, `price` and (for
opens) `amount_usdt_percent` arguments of `_execute_order`. -/
inductive Order where
  | buyLong (timestamp : ℕ) (price : ℚ) (amount_usdt_percent : ℚ)
  | closeLong (timestamp : ℕ) (price : ℚ)
  | sellShort (timestamp : ℕ) (price : ℚ) (amount_usdt_percent : ℚ)
  | closeShort (timestamp : ℕ) (price : ℚ)
deriving Repr, DecidableEq

/-- The `price` argument carried by an order request. -/
def Order.price : Order → ℚ
  | .buyLong _ p _ => p
  | .closeLong _ p => p
  | .sellShort _ p _ => p
  | .closeShort _ p => p

/-- `MIN_ORDER_USDT` constant of `_execute_order`. -/
def MIN_ORDER_USDT : ℚ := 5

/-- The BUY_LONG branch of `_execute_order`.  The Python locals are
`usdt_to_spend = current_balance * amount_usdt_percent`,
`amount_coins = (usdt_to_spend / price) * (1 - fee)` and
`cost_usdt = usdt_to_spend`; they are inlined below. -/
def execBuyLong (ts : ℕ) (price pct : ℚ) (s : EngState) : Bool × EngState :=
  if 0 < s.position then (false, s)
  else if s.position < 0 then (false, s)
  else if s.current_balance ≤ 0 then (false, s)
  else if ¬ (0 < pct ∧ pct ≤ 1) then (false, s)
  else if s.current_balance * pct < MIN_ORDER_USDT then (false, s)
  else
    (true,
      { s with
        current_balance := s.current_balance - s.current_balance * pct
        position := s.current_balance * pct / price * (1 - s.fee)
        entry_price := price
        trade_log := s.trade_log ++
          [{ timestamp := ts
             kind := .BUY_LONG
             price := price
             amount_coins := s.current_balance * pct / price * (1 - s.fee)
             cash_usdt := s.current_balance * pct
             balance_after_trade := s.current_balance - s.current_balance * pct
             current_position := s.current_balance * pct / price * (1 - s.fee)
             pnl_usdt := 0 }] })

/-- The CLOSE_LONG branch of `_execute_order`.  Python locals:
`gross_revenue_usdt = position * price`,
`net_revenue_usdt = gross_revenue_usdt * (1 - fee)`,
`initial_position_cost_usdt = position * entry_price`,
`profit_loss = net_revenue_usdt - initial_position_cost_usdt`. -/
def execCloseLong (ts : ℕ) (price : ℚ) (s : EngState) : Bool × EngState :=
  if s.position ≤ 0 then (false, s)
  else
    (true,
      { s with
        current_balance := s.current_balance + s.position * price * (1 - s.fee)
        position := 0
        entry_price := 0
        trade_log := s.trade_log ++
          [{ timestamp := ts
             kind := .CLOSE_LONG
             price := price
             amount_coins := 0
             cash_usdt := s.position * price * (1 - s.fee)
             balance_after_trade := s.current_balance + s.position * price * (1 - s.fee)
             current_position := 0
             pnl_usdt := s.position * price * (1 - s.fee) - s.position * s.entry_price }] })

/-- The SELL_SHORT branch of `_execute_order`.  Python locals:
`usdt_to_short_equivalent = current_balance * amount_usdt_percent`,
`amount_coins_short = (usdt_to_short_equivalent / price) * (1 - fee)`;
the balance receives `usdt_to_short_equivalent * (1 - fee)`. -/
def execSellShort (ts : ℕ) (price pct : ℚ) (s : EngState) : Bool × EngState :=
  if s.position < 0 then (false, s)
  else if 0 < s.position then (false, s)
  else if ¬ (0 < pct ∧ pct ≤ 1) then (false, s)
  else if s.current_balance * pct < MIN_ORDER_USDT then (false, s)
  else
    (true,
      { s with
        current_balance := s.current_balance + s.current_balance * pct * (1 - s.fee)
        position := -(s.current_balance * pct / price * (1 - s.fee))
        entry_price := price
        trade_log := s.trade_log ++
          [{ timestamp := ts
             kind := .SELL_SHORT
             price := price
             amount_coins := -(s.current_balance * pct / price * (1 - s.fee))
             cash_usdt := s.current_balance * pct * (1 - s.fee)
             balance_after_trade := s.current_balance + s.current_balance * pct * (1 - s.fee)
             current_position := -(s.current_balance * pct / price * (1 - s.fee))
             pnl_usdt := 0 }] })

/-- The CLOSE_SHORT branch of `_execute_order`.  Python locals:
`amount_coins_to_buy_back = abs(position)`,
`cost_to_buy_back = (amount_coins_to_buy_back * price) * (1 + fee)`,
`revenue_from_short_open = abs(position) * entry_price * (1 - fee)`,
`cost_for_short_close = abs(position) * price * (1 + fee)`,
`profit_loss = revenue_from_short_open - cost_for_short_close`.
The insufficient-balance check precedes every state mutation. -/
def execCloseShort (ts : ℕ) (price : ℚ) (s : EngState) : Bool × EngState :=
  if 0 ≤ s.position then (false, s)
  else if s.current_balance < |s.position| * price * (1 + s.fee) then (false, s)
  else
    (true,
      { s with
        current_balance := s.current_balance - |s.position| * price * (1 + s.fee)
        position := 0
        entry_price := 0
        trade_log := s.trade_log ++
          [{ timestamp := ts
             kind := .CLOSE_SHORT
             price := price
             amount_coins := 0
             cash_usdt := |s.position| * price * (1 + s.fee)
             balance_after_trade := s.current_balance - |s.position| * price * (1 + s.fee)
             current_position := 0
             pnl_usdt := |s.position| * s.entry_price * (1 - s.fee) -
               |s.position| * price * (1 + s.fee) }] })

/-- `Backtester._execute_order`: dispatch on the order type.  Every
failing path returns `(false, s)` with the state untouched; every
successful path appends exactly one trade record and returns `true`,
exactly as the Python method returns `False` or `True`. -/
def execOrder : Order → EngState → Bool × EngState
  | .buyLong ts price pct, s => execBuyLong ts price pct s
  | .closeLong ts price, s => execCloseLong ts price s
  | .sellShort ts price pct, s => execSellShort ts price pct s
  | .closeShort ts price, s => execCloseShort ts price s

/-- Apply a finite sequence of order requests in order (each public
method `open_long`, `close_long`, `open_short`, `close_short` is a
direct call of `_execute_order`). -/
def applyOrders (orders : List Order) (s : EngState) : EngState :=
  orders.foldl (fun st o => (execOrder o st).2) s

/-- The engine accessors visible to a strategy:
`get_current_position`, `get_current_balance`, `get_entry_price`
(`get_position_type` is the sign of `position`). -/
structure EngView where
  position : ℚ
  current_balance : ℚ
  entry_price : ℚ
deriving Repr, DecidableEq

/-- Accessor view of a state. -/
def view (s : EngState) : EngView :=
  { position := s.position
    current_balance := s.current_balance
    entry_price := s.entry_price }

/-- A strategy: given a candle and the accessor view of the engine, the
sequence of order operations its `on_candle` callback issues.  Order
execution is deterministic, so an adaptive callback is extensionally a
function of the candle and the pre-callback state it can observe. -/
def Strategy : Type := Candle → EngView → List Order

/-- One iteration of the `run_backtest` loop: invoke the strategy
callback, then append one equity sample computed as in the loop body
(`current_equity = current_balance`, plus `position * close_price`
when `position != 0`). -/
def stepCandle (strat : Strategy) (c : Candle) (s : EngState) : EngState :=
  let s' := applyOrders (strat c (view s)) s
  { s' with
    equity_log := s'.equity_log ++
      [{ timestamp := c.timestamp
         equity := if s'.position ≠ 0
                   then s'.current_balance + s'.position * c.close
                   else s'.current_balance }] }

/-- `Backtester.run_backtest`: iterate over all candles. -/
def runBacktest (strat : Strategy) (candles : List Candle) (s : EngState) :
    EngState :=
  candles.foldl (fun st c => stepCandle strat c st) s

/-- Modelled from the spec: the equity trace demanded by the
specification, one sample per candle, taken immediately after the
strategy callback returns, whose equity is exactly
`balance + size * close_price` of the post-callback state. -/
def specEquityTrace (strat : Strategy) :
    List Candle → EngState → List EquitySample
  | [], _ => []
  | c :: cs, s =>
    let s' := applyOrders (strat c (view s)) s
    { timestamp := c.timestamp
      equity := s'.current_balance + s'.position * c.close } ::
      specEquityTrace strat cs (stepCandle strat c s)

/-! Helper characterisations of the four branches on their success
preconditions.  Each right-hand side is literally the success pair of
the corresponding definition. -/

lemma execBuyLong_success (s : EngState) (ts : ℕ) (price pct : ℚ)
    (hflat : s.position = 0) (hbal : 0 < s.current_balance)
    (hpct1 : 0 < pct) (hpct2 : pct ≤ 1)
    (hmin : MIN_ORDER_USDT ≤ s.current_balance * pct) :
    execBuyLong ts price pct s =
      (true,
        { s with
          current_balance := s.current_balance - s.current_balance * pct
          position := s.current_balance * pct / price * (1 - s.fee)
          entry_price := price
          trade_log := s.trade_log ++
            [{ timestamp := ts
               kind := .BUY_LONG
               price := price
               amount_coins := s.current_balance * pct / price * (1 - s.fee)
               cash_usdt := s.current_balance * pct
               balance_after_trade := s.current_balance - s.current_balance * pct
               current_position := s.current_balance * pct / price * (1 - s.fee)
               pnl_usdt := 0 }] }) := by
  unfold execBuyLong
  rw [if_neg (by simp [hflat]), if_neg (by simp [hflat]),
    if_neg (by linarith), if_neg (not_not_intro ⟨hpct1, hpct2⟩),
    if_neg (not_lt.mpr hmin)]

lemma execCloseLong_success (s : EngState) (ts : ℕ) (price : ℚ)
    (hlong : 0 < s.position) :
    execCloseLong ts price s =
      (true,
        { s with
          current_balance := s.current_balance + s.position * price * (1 - s.fee)
          position := 0
          entry_price := 0
          trade_log := s.trade_log ++
            [{ timestamp := ts
               kind := .CLOSE_LONG
               price := price
               amount_coins := 0
               cash_usdt := s.position * price * (1 - s.fee)
               balance_after_trade :=
                 s.current_balance + s.position * price * (1 - s.fee)
               current_position := 0
               pnl_usdt := s.position * price * (1 - s.fee) -
                 s.position * s.entry_price }] }) := by
  unfold execCloseLong
  rw [if_neg (not_le.mpr hlong)]

lemma execSellShort_success (s : EngState) (ts : ℕ) (price pct : ℚ)
    (hflat : s.position = 0) (hpct1 : 0 < pct) (hpct2 : pct ≤ 1)
    (hmin : MIN_ORDER_USDT ≤ s.current_balance * pct) :
    execSellShort ts price pct s =
      (true,
        { s with
          current_balance :=
            s.current_balance + s.current_balance * pct * (1 - s.fee)
          position := -(s.current_balance * pct / price * (1 - s.fee))
          entry_price := price
          trade_log := s.trade_log ++
            [{ timestamp := ts
               kind := .SELL_SHORT
               price := price
               amount_coins := -(s.current_balance * pct / price * (1 - s.fee))
               cash_usdt := s.current_balance * pct * (1 - s.fee)
               balance_after_trade :=
                 s.current_balance + s.current_balance * pct * (1 - s.fee)
               current_position := -(s.current_balance * pct / price * (1 - s.fee))
               pnl_usdt := 0 }] }) := by
  unfold execSellShort
  rw [if_neg (by simp [hflat]), if_neg (by simp [hflat]),
    if_neg (not_not_intro ⟨hpct1, hpct2⟩), if_neg (not_lt.mpr hmin)]

lemma execCloseShort_success (s : EngState) (ts : ℕ) (price : ℚ)
    (hshort : s.position < 0)
    (hbal : |s.position| * price * (1 + s.fee) ≤ s.current_balance) :
    execCloseShort ts price s =
      (true,
        { s with
          current_balance :=
            s.current_balance - |s.position| * price * (1 + s.fee)
          position := 0
          entry_price := 0
          trade_log := s.trade_log ++
            [{ timestamp := ts
               kind := .CLOSE_SHORT
               price := price
               amount_coins := 0
               cash_usdt := |s.position| * price * (1 + s.fee)
               balance_after_trade :=
                 s.current_balance - |s.position| * price * (1 + s.fee)
               current_position := 0
               pnl_usdt := |s.position| * s.entry_price * (1 - s.fee) -
                 |s.position| * price * (1 + s.fee) }] }) := by
  unfold execCloseShort
  rw [if_neg (not_le.mpr hshort), if_neg (not_lt.mpr hbal)]

/-- C1: every rejection of an order operation — wrong-direction or
duplicate open, no position to close, sizing fraction outside (0,1],
notional below MIN_ORDER, non-positive balance on an open, or
insufficient balance to buy back a short — returns the boolean failure
False and leaves the whole engine state (balance, position, entry
price, trade log, equity log) unchanged; since `execOrder` is a total
function, no exception is raised. -/
theorem order_rejection_is_noop (s : EngState) (ts : ℕ) (price pct : ℚ) :
    ((0 < s.position ∨ s.position < 0 ∨ s.current_balance ≤ 0 ∨
        ¬ (0 < pct ∧ pct ≤ 1) ∨ s.current_balance * pct < MIN_ORDER_USDT) →
      execOrder (.buyLong ts price pct) s = (false, s)) ∧
    (s.position ≤ 0 → execOrder (.closeLong ts price) s = (false, s)) ∧
    ((s.position < 0 ∨ 0 < s.position ∨ s.current_balance ≤ 0 ∨
        ¬ (0 < pct ∧ pct ≤ 1) ∨ s.current_balance * pct < MIN_ORDER_USDT) →
      execOrder (.sellShort ts price pct) s = (false, s)) ∧
    ((0 ≤ s.position ∨ s.current_balance < |s.position| * price * (1 + s.fee)) →
      execOrder (.closeShort ts price) s = (false, s)) := by
  refine ⟨fun h => ?_, fun h => ?_, fun h => ?_, fun h => ?_⟩
  · show execBuyLong ts price pct s = (false, s)
    unfold execBuyLong
    split_ifs with h1 h2 h3 h4 h5 <;> try rfl
    rcases h with h | h | h | h | h
    · exact absurd h h1
    · exact absurd h h2
    · exact absurd h h3
    · exact absurd h4 h
    · exact absurd h h5
  · show execCloseLong ts price s = (false, s)
    unfold execCloseLong
    rw [if_pos h]
  · show execSellShort ts price pct s = (false, s)
    unfold execSellShort
    split_ifs with h1 h2 h3 h4 <;> try rfl
    rcases h with h | h | h | h | h
    · exact absurd h h1
    · exact absurd h h2
    · have hb := mul_le_mul_of_nonneg_right h h3.1.le
      rw [zero_mul] at hb
      exact absurd (lt_of_le_of_lt hb (by norm_num [MIN_ORDER_USDT])) h4
    · exact absurd h3 h
    · exact absurd h h4
  · show execCloseShort ts price s = (false, s)
    unfold execCloseShort
    split_ifs with h1 h2 <;> try rfl
    rcases h with h | h
    · exact absurd h h1
    · exact absurd h h2

/-- Witness for C1: on a fresh engine with balance 1000 and fee 0, all
four operations are rejected as no-ops — the opens because the sizing
fraction 2 lies outside (0,1], the closes because the position is
flat. -/
theorem order_rejection_is_noop_witness :
    execOrder (.buyLong 0 10 2) (mkBacktester 1000 0) =
      (false, mkBacktester 1000 0) ∧
    execOrder (.closeLong 0 10) (mkBacktester 1000 0) =
      (false, mkBacktester 1000 0) ∧
    execOrder (.sellShort 0 10 2) (mkBacktester 1000 0) =
      (false, mkBacktester 1000 0) ∧
    execOrder (.closeShort 0 10) (mkBacktester 1000 0) =
      (false, mkBacktester 1000 0) := by
  refine ⟨?_, ?_, ?_, ?_⟩
  · exact (order_rejection_is_noop (mkBacktester 1000 0) 0 10 2).1
      (Or.inr (Or.inr (Or.inr (Or.inl (by decide)))))
  · exact (order_rejection_is_noop (mkBacktester 1000 0) 0 10 2).2.1
      (by decide)
  · exact (order_rejection_is_noop (mkBacktester 1000 0) 0 10 2).2.2.1
      (Or.inr (Or.inr (Or.inr (Or.inl (by decide)))))
  · exact (order_rejection_is_noop (mkBacktester 1000 0) 0 10 2).2.2.2
      (Or.inl (by decide))

/-- C2: from a flat position with sizing fraction in (0,1], notional at
least MIN_ORDER and positive balance and price, open_long succeeds;
afterwards the position equals (balance * fraction / price) * (1 - fee),
the balance drops by exactly balance * fraction, the entry price is the
execution price, and exactly one trade record with realized pnl 0 is
appended. -/
theorem open_long_success_spec (s : EngState) (ts : ℕ) (price pct : ℚ)
    (hflat : s.position = 0) (hpct1 : 0 < pct) (hpct2 : pct ≤ 1)
    (hmin : MIN_ORDER_USDT ≤ s.current_balance * pct)
    (hbal : 0 < s.current_balance) (hprice : 0 < price) :
    (execOrder (.buyLong ts price pct) s).1 = true ∧
    (execOrder (.buyLong ts price pct) s).2.position =
      s.current_balance * pct / price * (1 - s.fee) ∧
    (execOrder (.buyLong ts price pct) s).2.current_balance =
      s.current_balance - s.current_balance * pct ∧
    (execOrder (.buyLong ts price pct) s).2.entry_price = price ∧
    (execOrder (.buyLong ts price pct) s).2.trade_log =
      s.trade_log ++
        [{ timestamp := ts
           kind := .BUY_LONG
           price := price
           amount_coins := s.current_balance * pct / price * (1 - s.fee)
           cash_usdt := s.current_balance * pct
           balance_after_trade := s.current_balance - s.current_balance * pct
           current_position := s.current_balance * pct / price * (1 - s.fee)
           pnl_usdt := 0 }] := by
  rw [show execOrder (.buyLong ts price pct) s = execBuyLong ts price pct s
      from rfl,
    execBuyLong_success s ts price pct hflat hbal hpct1 hpct2 hmin]
  exact ⟨rfl, rfl, rfl, rfl, rfl⟩

/-- Witness for C2: balance 10000, fee 0, opening long with fraction
1/2 at price 100 yields a 50-coin position, balance 5000, entry price
100 and a single trade record with pnl 0. -/
theorem open_long_success_spec_witness :
    (execOrder (.buyLong 7 100 (1/2)) (mkBacktester 10000 0)).1 = true ∧
    (execOrder (.buyLong 7 100 (1/2)) (mkBacktester 10000 0)).2.position = 50 ∧
    (execOrder (.buyLong 7 100 (1/2)) (mkBacktester 10000 0)).2.current_balance
      = 5000 ∧
    (execOrder (.buyLong 7 100 (1/2)) (mkBacktester 10000 0)).2.entry_price
      = 100 ∧
    (execOrder (.buyLong 7 100 (1/2)) (mkBacktester 10000 0)).2.trade_log.map
      TradeRecord.pnl_usdt = [0] := by
  have h := open_long_success_spec (mkBacktester 10000 0) 7 100 (1/2) rfl
    (by norm_num) (by norm_num) (by norm_num [mkBacktester, MIN_ORDER_USDT])
    (by norm_num [mkBacktester]) (by norm_num)
  refine ⟨h.1, ?_, ?_, h.2.2.2.1, ?_⟩
  · rw [h.2.1]; norm_num [mkBacktester]
  · rw [h.2.2.1]; norm_num [mkBacktester]
  · rw [h.2.2.2.2]; simp [mkBacktester]

/-- C3: from a short position with balance at least
cost = abs(size) * price * (1 + fee), close_short succeeds; afterwards
the balance drops by exactly cost, the recorded realized pnl is
abs(size) * entry_price * (1 - fee) - cost, position and entry price
are reset to 0, and exactly one trade record is appended. -/
theorem close_short_success_spec (s : EngState) (ts : ℕ) (price : ℚ)
    (hshort : s.position < 0)
    (hbal : |s.position| * price * (1 + s.fee) ≤ s.current_balance) :
    (execOrder (.closeShort ts price) s).1 = true ∧
    (execOrder (.closeShort ts price) s).2.current_balance =
      s.current_balance - |s.position| * price * (1 + s.fee) ∧
    (execOrder (.closeShort ts price) s).2.position = 0 ∧
    (execOrder (.closeShort ts price) s).2.entry_price = 0 ∧
    (execOrder (.closeShort ts price) s).2.trade_log =
      s.trade_log ++
        [{ timestamp := ts
           kind := .CLOSE_SHORT
           price := price
           amount_coins := 0
           cash_usdt := |s.position| * price * (1 + s.fee)
           balance_after_trade :=
             s.current_balance - |s.position| * price * (1 + s.fee)
           current_position := 0
           pnl_usdt := |s.position| * s.entry_price * (1 - s.fee) -
             |s.position| * price * (1 + s.fee) }] := by
  rw [show execOrder (.closeShort ts price) s = execCloseShort ts price s
      from rfl,
    execCloseShort_success s ts price hshort hbal]
  exact ⟨rfl, rfl, rfl, rfl, rfl⟩

/-- Witness for C3: short 100 coins from entry 100 with balance 20000
and fee 0, closing at price 150 costs 15000, leaves balance 5000, a
flat position and one record with realized pnl -5000. -/
theorem close_short_success_spec_witness :
    (execOrder (.closeShort 3 150)
      ⟨10000, 20000, 0, -100, 100, [], []⟩).1 = true ∧
    (execOrder (.closeShort 3 150)
      ⟨10000, 20000, 0, -100, 100, [], []⟩).2.current_balance = 5000 ∧
    (execOrder (.closeShort 3 150)
      ⟨10000, 20000, 0, -100, 100, [], []⟩).2.position = 0 ∧
    (execOrder (.closeShort 3 150)
      ⟨10000, 20000, 0, -100, 100, [], []⟩).2.entry_price = 0 ∧
    (execOrder (.closeShort 3 150)
      ⟨10000, 20000, 0, -100, 100, [], []⟩).2.trade_log.map
        TradeRecord.pnl_usdt = [-5000] := by
  have h := close_short_success_spec ⟨10000, 20000, 0, -100, 100, [], []⟩ 3 150
    (by norm_num) (by norm_num)
  refine ⟨h.1, ?_, h.2.2.1, h.2.2.2.1, ?_⟩
  · rw [h.2.1]; norm_num
  · rw [h.2.2.2.2]; norm_num

/-- C4: from a long position, close_long succeeds; afterwards the
balance rises by exactly revenue = size * price * (1 - fee), the
recorded realized pnl is revenue - size * entry_price, position and
entry price are reset to 0, and exactly one trade record is
appended. -/
theorem close_long_success_spec (s : EngState) (ts : ℕ) (price : ℚ)
    (hlong : 0 < s.position) :
    (execOrder (.closeLong ts price) s).1 = true ∧
    (execOrder (.closeLong ts price) s).2.current_balance =
      s.current_balance + s.position * price * (1 - s.fee) ∧
    (execOrder (.closeLong ts price) s).2.position = 0 ∧
    (execOrder (.closeLong ts price) s).2.entry_price = 0 ∧
    (execOrder (.closeLong ts price) s).2.trade_log =
      s.trade_log ++
        [{ timestamp := ts
           kind := .CLOSE_LONG
           price := price
           amount_coins := 0
           cash_usdt := s.position * price * (1 - s.fee)
           balance_after_trade :=
             s.current_balance + s.position * price * (1 - s.fee)
           current_position := 0
           pnl_usdt := s.position * price * (1 - s.fee) -
             s.position * s.entry_price }] := by
  rw [show execOrder (.closeLong ts price) s = execCloseLong ts price s
      from rfl,
    execCloseLong_success s ts price hlong]
  exact ⟨rfl, rfl, rfl, rfl, rfl⟩

/-- Witness for C4 (the §8 scenario of the spec): long 100 coins from
entry 100 with balance 0 and fee 0, closing at price 110 yields balance
11000, a flat position and one record with realized pnl 1000. -/
theorem close_long_success_spec_witness :
    (execOrder (.closeLong 5 110)
      ⟨10000, 0, 0, 100, 100, [], []⟩).1 = true ∧
    (execOrder (.closeLong 5 110)
      ⟨10000, 0, 0, 100, 100, [], []⟩).2.current_balance = 11000 ∧
    (execOrder (.closeLong 5 110)
      ⟨10000, 0, 0, 100, 100, [], []⟩).2.position = 0 ∧
    (execOrder (.closeLong 5 110)
      ⟨10000, 0, 0, 100, 100, [], []⟩).2.entry_price = 0 ∧
    (execOrder (.closeLong 5 110)
      ⟨10000, 0, 0, 100, 100, [], []⟩).2.trade_log.map
        TradeRecord.pnl_usdt = [1000] := by
  have h := close_long_success_spec ⟨10000, 0, 0, 100, 100, [], []⟩ 5 110
    (by norm_num)
  refine ⟨h.1, ?_, h.2.2.1, h.2.2.2.1, ?_⟩
  · rw [h.2.1]; norm_num
  · rw [h.2.2.2.2]; norm_num

/-- Order execution never changes the configured fee. -/
lemma execOrder_fee (o : Order) (s : EngState) :
    ((execOrder o s).2).fee = s.fee := by
  cases o with
  | buyLong ts price pct =>
    show ((execBuyLong ts price pct s).2).fee = s.fee
    unfold execBuyLong; split_ifs <;> rfl
  | closeLong ts price =>
    show ((execCloseLong ts price s).2).fee = s.fee
    unfold execCloseLong; split_ifs <;> rfl
  | sellShort ts price pct =>
    show ((execSellShort ts price pct s).2).fee = s.fee
    unfold execSellShort; split_ifs <;> rfl
  | closeShort ts price =>
    show ((execCloseShort ts price s).2).fee = s.fee
    unfold execCloseShort; split_ifs <;> rfl

/-- A single order execution keeps the balance non-negative when the
fee is below 1 and the order price is positive. -/
lemma balance_nonneg_step (o : Order) (s : EngState)
    (hfee1 : s.fee < 1) (hp : 0 < o.price) (h : 0 ≤ s.current_balance) :
    0 ≤ ((execOrder o s).2).current_balance := by
  cases o with
  | buyLong ts price pct =>
    show 0 ≤ ((execBuyLong ts price pct s).2).current_balance
    unfold execBuyLong
    split_ifs with h1 h2 h3 h4 h5 <;> try exact h
    show 0 ≤ s.current_balance - s.current_balance * pct
    have hb : 0 < s.current_balance := not_le.mp h3
    have hm := mul_le_mul_of_nonneg_left h4.2 hb.le
    simp only [mul_one] at hm
    linarith
  | closeLong ts price =>
    show 0 ≤ ((execCloseLong ts price s).2).current_balance
    unfold execCloseLong
    split_ifs with h1 <;> try exact h
    show 0 ≤ s.current_balance + s.position * price * (1 - s.fee)
    have hp' : 0 < price := hp
    have hpos : 0 < s.position := not_le.mp h1
    have hrev : 0 ≤ s.position * price * (1 - s.fee) :=
      mul_nonneg (mul_nonneg hpos.le hp'.le) (by linarith)
    linarith
  | sellShort ts price pct =>
    show 0 ≤ ((execSellShort ts price pct s).2).current_balance
    unfold execSellShort
    split_ifs with h1 h2 h3 h4 <;> try exact h
    show 0 ≤ s.current_balance + s.current_balance * pct * (1 - s.fee)
    have hrev : 0 ≤ s.current_balance * pct * (1 - s.fee) :=
      mul_nonneg (mul_nonneg h h3.1.le) (by linarith)
    linarith
  | closeShort ts price =>
    show 0 ≤ ((execCloseShort ts price s).2).current_balance
    unfold execCloseShort
    split_ifs with h1 h2 <;> try exact h
    show 0 ≤ s.current_balance - |s.position| * price * (1 + s.fee)
    have hc := not_lt.mp h2
    linarith

/-- Balance non-negativity is preserved by any order sequence. -/
lemma balance_nonneg_fold (orders : List Order) :
    ∀ s : EngState, 0 ≤ s.current_balance → s.fee < 1 →
      (∀ o ∈ orders, 0 < o.price) →
      0 ≤ (applyOrders orders s).current_balance := by
  induction orders with
  | nil => intro s h _ _; exact h
  | cons o os ih =>
    intro s h hfee hp
    have hstep : applyOrders (o :: os) s = applyOrders os ((execOrder o s).2) :=
      List.foldl_cons _ _
    rw [hstep]
    refine ih ((execOrder o s).2)
      (balance_nonneg_step o s hfee (hp o (List.mem_cons_self o os)) h) ?_
      (fun o' ho' => hp o' (List.mem_cons_of_mem o ho'))
    rw [execOrder_fee]
    exact hfee

/-- C5: starting from a non-negative balance, with fee in [0,1) and all
order prices positive, the balance is still non-negative after every
prefix of any sequence of the four order operations: no operation the
engine executes drives the balance below zero. -/
theorem balance_nonneg_after_ops (orders : List Order) (s : EngState)
    (hbal : 0 ≤ s.current_balance) (hfee0 : 0 ≤ s.fee) (hfee1 : s.fee < 1)
    (hprices : ∀ o ∈ orders, 0 < o.price) (n : ℕ) :
    0 ≤ (applyOrders (orders.take n) s).current_balance :=
  balance_nonneg_fold (orders.take n) s hbal hfee1
    (fun o ho => hprices o (List.mem_of_mem_take ho))

/-- Witness for C5: a full open-close long then open-close short cycle
from balance 10000 with fee 0 keeps the balance non-negative. -/
theorem balance_nonneg_after_ops_witness :
    (0:ℚ) ≤ (mkBacktester 10000 0).current_balance ∧
    0 ≤ (applyOrders
      ([.buyLong 0 100 1, .closeLong 1 90, .sellShort 2 90 1,
        .closeShort 3 80].take 4) (mkBacktester 10000 0)).current_balance := by
  refine ⟨by norm_num [mkBacktester], ?_⟩
  refine balance_nonneg_after_ops _ (mkBacktester 10000 0)
    (by norm_num [mkBacktester]) (by norm_num [mkBacktester])
    (by norm_num [mkBacktester]) ?_ 4
  intro o ho
  fin_cases ho <;> norm_num [Order.price]

/-- The flat invariant of the spec: position size and entry price are
simultaneously zero, and a non-zero position has a strictly positive
entry price. -/
def flatInv (s : EngState) : Prop :=
  (s.position = 0 ↔ s.entry_price = 0) ∧ (s.position ≠ 0 → 0 < s.entry_price)

/-- A single order execution preserves the flat invariant when the fee
is below 1 and the order price is positive. -/
lemma flatInv_step (o : Order) (s : EngState)
    (hfee1 : s.fee < 1) (hp : 0 < o.price) (h : flatInv s) :
    flatInv ((execOrder o s).2) := by
  cases o with
  | buyLong ts price pct =>
    show flatInv ((execBuyLong ts price pct s).2)
    unfold execBuyLong
    split_ifs with h1 h2 h3 h4 h5 <;> try exact h
    have hp' : 0 < price := hp
    have hspend : 0 < s.current_balance * pct :=
      lt_of_lt_of_le (by norm_num [MIN_ORDER_USDT]) (not_lt.mp h5)
    have hposn : 0 < s.current_balance * pct / price * (1 - s.fee) :=
      mul_pos (div_pos hspend hp') (by linarith)
    exact ⟨⟨fun h0 => absurd h0 (ne_of_gt hposn),
      fun h0 => absurd h0 (ne_of_gt hp')⟩, fun _ => hp'⟩
  | closeLong ts price =>
    show flatInv ((execCloseLong ts price s).2)
    unfold execCloseLong
    split_ifs with h1 <;> try exact h
    exact ⟨⟨fun _ => rfl, fun _ => rfl⟩, fun h0 => absurd rfl h0⟩
  | sellShort ts price pct =>
    show flatInv ((execSellShort ts price pct s).2)
    unfold execSellShort
    split_ifs with h1 h2 h3 h4 <;> try exact h
    have hp' : 0 < price := hp
    have hspend : 0 < s.current_balance * pct :=
      lt_of_lt_of_le (by norm_num [MIN_ORDER_USDT]) (not_lt.mp h4)
    have hposn : 0 < s.current_balance * pct / price * (1 - s.fee) :=
      mul_pos (div_pos hspend hp') (by linarith)
    have hneg : -(s.current_balance * pct / price * (1 - s.fee)) < 0 :=
      neg_lt_zero.mpr hposn
    exact ⟨⟨fun h0 => absurd h0 (ne_of_lt hneg),
      fun h0 => absurd h0 (ne_of_gt hp')⟩, fun _ => hp'⟩
  | closeShort ts price =>
    show flatInv ((execCloseShort ts price s).2)
    unfold execCloseShort
    split_ifs with h1 h2 <;> try exact h
    exact ⟨⟨fun _ => rfl, fun _ => rfl⟩, fun h0 => absurd rfl h0⟩

/-- The flat invariant is preserved by any order sequence. -/
lemma flatInv_fold (orders : List Order) :
    ∀ s : EngState, flatInv s → s.fee < 1 →
      (∀ o ∈ orders, 0 < o.price) → flatInv (applyOrders orders s) := by
  induction orders with
  | nil => intro s h _ _; exact h
  | cons o os ih =>
    intro s h hfee hp
    have hstep : applyOrders (o :: os) s = applyOrders os ((execOrder o s).2) :=
      List.foldl_cons _ _
    rw [hstep]
    refine ih ((execOrder o s).2)
      (flatInv_step o s hfee (hp o (List.mem_cons_self o os)) h) ?_
      (fun o' ho' => hp o' (List.mem_cons_of_mem o ho'))
    rw [execOrder_fee]
    exact hfee

/-- C6: from the constructed state, with fee in [0,1) and all order
prices positive, after every prefix of any sequence of the four order
operations the position size and entry price are simultaneously zero or
simultaneously non-zero, and a non-zero size has a strictly positive
entry price. -/
theorem flat_invariant_after_ops (orders : List Order) (b fee : ℚ)
    (hfee0 : 0 ≤ fee) (hfee1 : fee < 1)
    (hprices : ∀ o ∈ orders, 0 < o.price) (n : ℕ) :
    flatInv (applyOrders (orders.take n) (mkBacktester b fee)) :=
  flatInv_fold (orders.take n) (mkBacktester b fee)
    ⟨⟨fun _ => rfl, fun _ => rfl⟩, fun h0 => absurd rfl h0⟩ hfee1
    (fun o ho => hprices o (List.mem_of_mem_take ho))

/-- Witness for C6: the flat invariant holds after an open-long and
close-long from balance 10000 with fee 0. -/
theorem flat_invariant_after_ops_witness :
    (0:ℚ) ≤ 0 ∧
    flatInv (applyOrders
      ([.buyLong 0 100 1, .closeLong 1 90].take 2) (mkBacktester 10000 0)) := by
  refine ⟨le_refl 0, ?_⟩
  refine flat_invariant_after_ops _ 10000 0 (le_refl 0) (by norm_num) ?_ 2
  intro o ho
  fin_cases ho <;> norm_num [Order.price]

/-! Dispatch equations of `execOrder`, one per order kind. -/

lemma execOrder_buyLong (ts : ℕ) (price pct : ℚ) (s : EngState) :
    execOrder (.buyLong ts price pct) s = execBuyLong ts price pct s := rfl

lemma execOrder_closeLong (ts : ℕ) (price : ℚ) (s : EngState) :
    execOrder (.closeLong ts price) s = execCloseLong ts price s := rfl

lemma execOrder_sellShort (ts : ℕ) (price pct : ℚ) (s : EngState) :
    execOrder (.sellShort ts price pct) s = execSellShort ts price pct s := rfl

lemma execOrder_closeShort (ts : ℕ) (price : ℚ) (s : EngState) :
    execOrder (.closeShort ts price) s = execCloseShort ts price s := rfl

/-- Order execution never touches the equity log. -/
lemma execOrder_equity_log (o : Order) (s : EngState) :
    ((execOrder o s).2).equity_log = s.equity_log := by
  cases o with
  | buyLong ts price pct =>
    rw [execOrder_buyLong]; unfold execBuyLong; split_ifs <;> rfl
  | closeLong ts price =>
    rw [execOrder_closeLong]; unfold execCloseLong; split_ifs <;> rfl
  | sellShort ts price pct =>
    rw [execOrder_sellShort]; unfold execSellShort; split_ifs <;> rfl
  | closeShort ts price =>
    rw [execOrder_closeShort]; unfold execCloseShort; split_ifs <;> rfl

/-- A strategy callback, which can only issue order operations, never
touches the equity log. -/
lemma applyOrders_equity_log (orders : List Order) :
    ∀ s : EngState, (applyOrders orders s).equity_log = s.equity_log := by
  induction orders with
  | nil => intro s; rfl
  | cons o os ih =>
    intro s
    rw [show applyOrders (o :: os) s = applyOrders os ((execOrder o s).2) from
      List.foldl_cons _ _]
    rw [ih, execOrder_equity_log]

/-- One loop iteration appends exactly one equity sample, and its
equity is exactly balance + position * close of the post-callback
state: the conditional of the loop body coincides with the unguarded
mark-to-market formula because the omitted term is zero on a flat
position. -/
lemma stepCandle_equity_log (strat : Strategy) (c : Candle) (s : EngState) :
    (stepCandle strat c s).equity_log =
      s.equity_log ++
        [{ timestamp := c.timestamp
           equity := (applyOrders (strat c (view s)) s).current_balance +
             (applyOrders (strat c (view s)) s).position * c.close }] := by
  simp only [stepCandle]
  rw [applyOrders_equity_log]
  by_cases h : (applyOrders (strat c (view s)) s).position = 0
  · simp [h]
  · simp [h]

/-- The equity log produced by `runBacktest` is exactly the trace
demanded by the spec. -/
lemma runBacktest_equity_log (strat : Strategy) :
    ∀ (cs : List Candle) (s : EngState),
      (runBacktest strat cs s).equity_log =
        s.equity_log ++ specEquityTrace strat cs s := by
  intro cs
  induction cs with
  | nil => intro s; simp [runBacktest, specEquityTrace]
  | cons c cs ih =>
    intro s
    rw [show runBacktest strat (c :: cs) s =
        runBacktest strat cs (stepCandle strat c s) from List.foldl_cons _ _]
    rw [ih, stepCandle_equity_log]
    rw [show specEquityTrace strat (c :: cs) s =
      { timestamp := c.timestamp
        equity := (applyOrders (strat c (view s)) s).current_balance +
          (applyOrders (strat c (view s)) s).position * c.close } ::
        specEquityTrace strat cs (stepCandle strat c s) from rfl]
    simp

/-- The spec trace has exactly one sample per candle. -/
lemma specEquityTrace_length (strat : Strategy) :
    ∀ (cs : List Candle) (s : EngState),
      (specEquityTrace strat cs s).length = cs.length := by
  intro cs
  induction cs with
  | nil => intro s; rfl
  | cons c cs ih =>
    intro s
    rw [show specEquityTrace strat (c :: cs) s =
      { timestamp := c.timestamp
        equity := (applyOrders (strat c (view s)) s).current_balance +
          (applyOrders (strat c (view s)) s).position * c.close } ::
        specEquityTrace strat cs (stepCandle strat c s) from rfl]
    simp [ih]

/-- C7: for every strategy and candle list, running the backtest from a
fresh engine produces an equity log equal to the spec trace — one
sample appended per candle, immediately after the strategy callback
returns and regardless of whether any order executed, whose equity
equals exactly current_balance + position * close of that candle — and
that trace has exactly one entry per candle. -/
theorem equity_sampling_spec (strat : Strategy) (candles : List Candle)
    (b fee : ℚ) :
    (runBacktest strat candles (mkBacktester b fee)).equity_log =
      specEquityTrace strat candles (mkBacktester b fee) ∧
    (specEquityTrace strat candles (mkBacktester b fee)).length =
      candles.length := by
  constructor
  · rw [runBacktest_equity_log strat candles (mkBacktester b fee)]
    simp [mkBacktester]
  · exact specEquityTrace_length strat candles (mkBacktester b fee)

/-- The realized pnl recorded by the most recent trade, if any. -/
def lastPnl (s : EngState) : Option ℚ :=
  (s.trade_log.map TradeRecord.pnl_usdt).getLast?

/-- C8 (amended): opening and immediately closing at the same price
records a round-trip pnl of -fee * (1 - fee) * notional for a long
(only the close-side fee appears, because the open-side fee is charged
in coins and already excluded from the recorded entry cost) and
-2 * fee * (1 - fee) * notional for a short, where
notional = balance * fraction; both are strictly negative whenever
fee > 0. -/
theorem round_trip_pnl_spec (s : EngState) (ts1 ts2 : ℕ) (price pct : ℚ)
    (hflat : s.position = 0) (hpct1 : 0 < pct) (hpct2 : pct ≤ 1)
    (hmin : MIN_ORDER_USDT ≤ s.current_balance * pct)
    (hprice : 0 < price) (hfee0 : 0 ≤ s.fee) (hfee1 : s.fee < 1) :
    lastPnl (execOrder (.closeLong ts2 price)
        (execOrder (.buyLong ts1 price pct) s).2).2 =
      some (-(s.fee * (1 - s.fee) * (s.current_balance * pct))) ∧
    lastPnl (execOrder (.closeShort ts2 price)
        (execOrder (.sellShort ts1 price pct) s).2).2 =
      some (-(2 * s.fee * (1 - s.fee) * (s.current_balance * pct))) ∧
    (0 < s.fee →
      -(s.fee * (1 - s.fee) * (s.current_balance * pct)) < 0 ∧
      -(2 * s.fee * (1 - s.fee) * (s.current_balance * pct)) < 0) := by
  have hbp : 0 < s.current_balance * pct :=
    lt_of_lt_of_le (by norm_num [MIN_ORDER_USDT]) hmin
  have hbal : 0 < s.current_balance := by
    rcases mul_pos_iff.mp hbp with ⟨h1, _⟩ | ⟨_, h2⟩
    · exact h1
    · exact absurd hpct1 (not_lt.mpr h2.le)
  have hfee' : 0 < 1 - s.fee := by linarith
  have hprice' : price ≠ 0 := ne_of_gt hprice
  have hcoin : 0 < s.current_balance * pct / price * (1 - s.fee) :=
    mul_pos (div_pos hbp hprice) hfee'
  refine ⟨?_, ?_, fun hf => ?_⟩
  · have hpos : 0 < ((execBuyLong ts1 price pct s).2).position := by
      rw [execBuyLong_success s ts1 price pct hflat hbal hpct1 hpct2 hmin]
      exact hcoin
    rw [execOrder_closeLong, execOrder_buyLong,
      execCloseLong_success ((execBuyLong ts1 price pct s).2) ts2 price hpos,
      execBuyLong_success s ts1 price pct hflat hbal hpct1 hpct2 hmin]
    dsimp only
    simp only [lastPnl, List.map_append, List.map_cons, List.map_nil,
      List.append_assoc, List.singleton_append, List.getLast?_append,
      List.getLast?_cons_cons, List.getLast?_singleton, Option.or_some]
    rw [Option.some_inj]
    field_simp
    ring
  · have hposS : ((execSellShort ts1 price pct s).2).position < 0 := by
      rw [execSellShort_success s ts1 price pct hflat hpct1 hpct2 hmin]
      exact neg_lt_zero.mpr hcoin
    have hN : s.current_balance * pct ≤ s.current_balance := by
      nlinarith [mul_le_mul_of_nonneg_left hpct2 hbal.le]
    have habs : |((execSellShort ts1 price pct s).2).position| * price *
        (1 + ((execSellShort ts1 price pct s).2).fee) ≤
        ((execSellShort ts1 price pct s).2).current_balance := by
      rw [execSellShort_success s ts1 price pct hflat hpct1 hpct2 hmin]
      show |(-(s.current_balance * pct / price * (1 - s.fee)))| * price *
        (1 + s.fee) ≤
        s.current_balance + s.current_balance * pct * (1 - s.fee)
      rw [abs_neg, abs_of_pos hcoin]
      have hper : s.current_balance * pct / price * (1 - s.fee) * price =
          s.current_balance * pct * (1 - s.fee) := by
        field_simp
      rw [show s.current_balance * pct / price * (1 - s.fee) * price *
          (1 + s.fee) =
          s.current_balance * pct / price * (1 - s.fee) * price * (1 + s.fee)
          from rfl, hper]
      nlinarith [mul_nonneg (mul_nonneg (sub_nonneg.mpr hN) hfee'.le) hfee0,
        mul_nonneg (mul_nonneg hbal.le hfee0) hfee0]
    rw [execOrder_closeShort, execOrder_sellShort,
      execCloseShort_success ((execSellShort ts1 price pct s).2) ts2 price
        hposS habs,
      execSellShort_success s ts1 price pct hflat hpct1 hpct2 hmin]
    dsimp only
    simp only [lastPnl, List.map_append, List.map_cons, List.map_nil,
      List.append_assoc, List.singleton_append, List.getLast?_append,
      List.getLast?_cons_cons, List.getLast?_singleton, Option.or_some]
    rw [Option.some_inj, abs_neg, abs_of_pos hcoin]
    field_simp
    ring
  · constructor
    · exact neg_lt_zero.mpr (mul_pos (mul_pos hf hfee') hbp)
    · exact neg_lt_zero.mpr
        (mul_pos (mul_pos (by linarith) hfee') hbp)

/-- Witness for C8 (amended): balance 10000, fee 1/10, fraction 1,
price 100: the long round trip records pnl -900 and the short round
trip records pnl -1800. -/
theorem round_trip_pnl_spec_witness :
    lastPnl (execOrder (.closeLong 1 100)
        (execOrder (.buyLong 0 100 1) (mkBacktester 10000 (1/10))).2).2 =
      some (-900) ∧
    lastPnl (execOrder (.closeShort 1 100)
        (execOrder (.sellShort 0 100 1) (mkBacktester 10000 (1/10))).2).2 =
      some (-1800) := by
  have h := round_trip_pnl_spec (mkBacktester 10000 (1/10)) 0 1 100 1 rfl
    (by norm_num) (le_refl 1) (by norm_num [mkBacktester, MIN_ORDER_USDT])
    (by norm_num) (by norm_num [mkBacktester]) (by norm_num [mkBacktester])
  refine ⟨?_, ?_⟩
  · rw [h.1]; norm_num [mkBacktester]
  · rw [h.2.1]; norm_num [mkBacktester]

/-- C8 counterexample: with balance 10000, fee f = 1/10, fraction 1 and
price 100, the long round trip records pnl -900, while
-2 f * notional = -2000; the recorded pnl is not -2 f * notional even
approximately — it misses it by 1100, more than half of the claimed
quantity itself. -/
theorem round_trip_pnl_claim_false :
    lastPnl (execOrder (.closeLong 1 100)
        (execOrder (.buyLong 0 100 1) (mkBacktester 10000 (1/10))).2).2 =
      some (-900) ∧
    (-2 * (1/10 : ℚ) * 10000 = -2000) ∧
    ((-900 : ℚ) ≠ -2000) ∧
    |(-900 : ℚ) - -2000| > (1/2) * |(-2000 : ℚ)| := by
  refine ⟨?_, by norm_num, by norm_num, by rw [abs_of_pos] <;> norm_num⟩
  norm_num [lastPnl, execOrder, execBuyLong, execCloseLong, mkBacktester,
    MIN_ORDER_USDT]

/-- A strategy that opens a 100 percent short on the first candle and
asks to close it on every later candle. -/
def stratC9 : Strategy := fun c v =>
  if v.position = 0 then [.sellShort c.timestamp c.close 1]
  else [.closeShort c.timestamp c.close]

/-- Three candles whose close prices are 100, 250 and 300: after the
100 percent short at 100 from balance 10000 with fee 0 (balance 20000,
position -100), buying the short back costs 25000 at candle 2 and
30000 at candle 3, both above the balance. -/
def candlesC9 : List Candle :=
  [⟨1, 100, 100, 100, 100, 0⟩, ⟨2, 250, 250, 250, 250, 0⟩,
   ⟨3, 300, 300, 300, 300, 0⟩]

/-- C9 evaluation: when close_short hits the insufficient-balance
condition mid-run, `_execute_order` returns the same plain False as an
ordinary rejection — indistinguishable from, say, a close_short on a
flat position — and `run_backtest` never inspects the outcome: it keeps
processing every remaining candle, appending an equity sample per
candle (the equities 10000, -5000, -10000 mark the phantom open short
to market), with the short position still open at the end. -/
theorem fatal_short_close_does_not_halt_run :
    (runBacktest stratC9 candlesC9 (mkBacktester 10000 0)).equity_log.map
      EquitySample.equity = [10000, -5000, -10000] ∧
    (runBacktest stratC9 candlesC9 (mkBacktester 10000 0)).equity_log.length
      = 3 ∧
    (runBacktest stratC9 candlesC9 (mkBacktester 10000 0)).position = -100 ∧
    (runBacktest stratC9 candlesC9 (mkBacktester 10000 0)).trade_log.length
      = 1 ∧
    (execOrder (.closeShort 2 250)
      (runBacktest stratC9 [⟨1, 100, 100, 100, 100, 0⟩]
        (mkBacktester 10000 0))).1 = false ∧
    (execOrder (.closeShort 2 250) (mkBacktester 10000 0)).1 = false := by
  refine ⟨?_, ?_, ?_, ?_, ?_, ?_⟩ <;>
    norm_num [runBacktest, stepCandle, applyOrders, stratC9, candlesC9, view,
      execOrder, execSellShort, execCloseShort, mkBacktester, MIN_ORDER_USDT]

/-- C10: the engine is deterministic — two runs over the same candles
from the same initial balance and fee, driven by strategies that make
identical decisions on every candle and accessor view, produce
identical trade logs, equity logs, final balance and final position. -/
theorem run_backtest_deterministic (strat1 strat2 : Strategy)
    (hstrat : ∀ (c : Candle) (v : EngView), strat1 c v = strat2 c v)
    (candles : List Candle) (b fee : ℚ) :
    (runBacktest strat1 candles (mkBacktester b fee)).trade_log =
      (runBacktest strat2 candles (mkBacktester b fee)).trade_log ∧
    (runBacktest strat1 candles (mkBacktester b fee)).equity_log =
      (runBacktest strat2 candles (mkBacktester b fee)).equity_log ∧
    (runBacktest strat1 candles (mkBacktester b fee)).current_balance =
      (runBacktest strat2 candles (mkBacktester b fee)).current_balance ∧
    (runBacktest strat1 candles (mkBacktester b fee)).position =
      (runBacktest strat2 candles (mkBacktester b fee)).position := by
  have h : strat1 = strat2 := funext fun c => funext fun v => hstrat c v
  subst h
  exact ⟨rfl, rfl, rfl, rfl⟩

/-- Witness for C10: the identical do-nothing strategy run twice over
one candle from balance 100 with fee 0. -/
theorem run_backtest_deterministic_witness :
    (runBacktest (fun _ _ => []) [⟨1, 1, 1, 1, 1, 1⟩]
        (mkBacktester 100 0)).trade_log =
      (runBacktest (fun _ _ => []) [⟨1, 1, 1, 1, 1, 1⟩]
        (mkBacktester 100 0)).trade_log ∧
    (runBacktest (fun _ _ => []) [⟨1, 1, 1, 1, 1, 1⟩]
        (mkBacktester 100 0)).equity_log =
      (runBacktest (fun _ _ => []) [⟨1, 1, 1, 1, 1, 1⟩]
        (mkBacktester 100 0)).equity_log ∧
    (runBacktest (fun _ _ => []) [⟨1, 1, 1, 1, 1, 1⟩]
        (mkBacktester 100 0)).current_balance =
      (runBacktest (fun _ _ => []) [⟨1, 1, 1, 1, 1, 1⟩]
        (mkBacktester 100 0)).current_balance ∧
    (runBacktest (fun _ _ => []) [⟨1, 1, 1, 1, 1, 1⟩]
        (mkBacktester 100 0)).position =
      (runBacktest (fun _ _ => []) [⟨1, 1, 1, 1, 1, 1⟩]
        (mkBacktester 100 0)).position :=
  run_backtest_deterministic (fun _ _ => []) (fun _ _ => [])
    (fun _ _ => rfl) [⟨1, 1, 1, 1, 1, 1⟩] 100 0

end Backtester
